import Mathlib

/-!
# Verification of the negmas `situated` world-orchestration module

A shallow embedding of `negmas/situated.py` (BulletinBoard, MechanismFactory,
World stepping loop, contract signing, breach resolution, tournament sampling)
together with theorems settling the specification claims about it.

Python `dict`s are embedded as insertion-ordered association lists with the
first binding of a key authoritative (Python keys are unique, so the two views
agree); `dict.__setitem__` replaces in place, `dict.update` folds `__setitem__`
over the other dict's items.
-/

namespace Negmas

/-- Association-list lookup: `d.get(k)` / `d[k]` for a Python dict. -/
def dictGet {K V : Type} [DecidableEq K] (d : List (K × V)) (k : K) : Option V :=
  (d.find? (fun kv => kv.1 = k)).map (·.2)

/-- `d[k] = v` for a Python dict: replace the binding in place if the key is
present, otherwise append it. -/
def dictSet {K V : Type} [DecidableEq K] : List (K × V) → K → V → List (K × V)
  | [], k, v => [(k, v)]
  | (k', v') :: rest, k, v =>
    if k' = k then (k, v) :: rest else (k', v') :: dictSet rest k v

/-- `d.update(e)` for Python dicts: assign every binding of `e` into `d`,
in order, so later bindings win over `d`'s. -/
def dictUpdate {K V : Type} [DecidableEq K] (d e : List (K × V)) : List (K × V) :=
  e.foldl (fun acc kv => dictSet acc kv.1 kv.2) d

/-! ## BulletinBoard (`situated.py` lines 145-311)

A board is `sections: map<name, map<key, value>>` (`self._data`). Values are
kept abstract in the type parameter `V`; the duck-typed `value.satisfies(query)`
capability and the `re.match` prefix key pattern are abstracted into the query
argument as boolean predicates. -/

/-- The `section` argument of `BulletinBoard.query`/`remove`: `None`, a single
section name, or a list of names. -/
inductive SectionSel : Type
  | allPublic : SectionSel
  | one : String → SectionSel
  | many : List String → SectionSel

/-- The `(query, query_keys)` argument pair of `BulletinBoard.query`:
`query is None` returns whole sections; otherwise with `query_keys` the
(prefix-anchored `re.match`) pattern is applied to keys, else the duck-typed
`v.satisfies(query)` capability is applied to values. -/
inductive QuerySpec (V : Type) : Type
  | noQuery : QuerySpec V
  | onKeys : (String → Bool) → QuerySpec V
  | onValues : (V → Bool) → QuerySpec V

/-- `BulletinBoard._data`. -/
def Board (V : Type) : Type := List (String × List (String × V))

/-- The single-section branch of `BulletinBoard.query` (lines 210-217):
`sec = self._data.get(section, None); if not sec: return None; ...`.
Note `not sec` is true both for a missing and for an existing *empty* section. -/
def querySingle {V : Type} (b : Board V) (s : String) (q : QuerySpec V) :
    Option (List (String × V)) :=
  match dictGet b s with
  | none => none
  | some sec =>
    if sec.isEmpty then none
    else
      match q with
      | .noQuery => some sec
      | .onKeys km => some (sec.filter (fun kv => km kv.1))
      | .onValues sat => some (sec.filter (fun kv => sat kv.2))

/-- The list-of-sections branch of `BulletinBoard.query` (lines 201-208):
query each section, then `final.update(_)` over the per-section results in
order.  When a per-section result is `None` (missing or empty section) the
call `final.update(None)` raises `TypeError`, embedded as `Except.error`. -/
def queryMany {V : Type} (b : Board V) (ss : List String) (q : QuerySpec V) :
    Except Unit (List (String × V)) :=
  (ss.map (fun s => querySingle b s q)).foldlM
    (fun acc r =>
      match r with
      | none => .error ()
      | some d => .ok (dictUpdate acc d)) []

/-- `[_ for _ in self._data.keys() if not _.startswith('_')]` (line 198). -/
def publicSections {V : Type} (b : Board V) : List String :=
  (b.map (·.1)).filter (fun s => !s.startsWith "_")

/-- `BulletinBoard.query` (lines 175-217).  `.ok none` is Python's `None`
return, `.error ()` is the raised `TypeError` from `final.update(None)`. -/
def query {V : Type} (b : Board V) (sel : SectionSel) (q : QuerySpec V) :
    Except Unit (Option (List (String × V))) :=
  match sel with
  | .allPublic => (queryMany b (publicSections b) q).map some
  | .many ss => (queryMany b ss q).map some
  | .one s => .ok (querySingle b s q)

/-- The first present value in a list of options (used to state the
last-writer-wins property of multi-section queries). -/
def firstSome {α : Type} : List (Option α) → Option α
  | [] => none
  | o :: rest =>
    match o with
    | some v => some v
    | none => firstSome rest

/-- `BulletinBoard.read` (lines 219-235). -/
def read {V : Type} (b : Board V) (s k : String) : Option V :=
  match dictGet b s with
  | none => none
  | some sec => dictGet sec k

/-- `BulletinBoard.record` (lines 237-256).  The key defaults to a
content-derived one (`str(hash(value))`, with a uuid fallback for unhashable
values, both abstracted into `hashKey`).  `self._data[section][skey] = value`
raises `KeyError` when the section was never added; embedded as
`Except.error`.  On success the stored board and the announced
`new_record` event data `(section, key, value)` are returned. -/
def record {V : Type} (hashKey : V → String) (b : Board V) (secName : String)
    (value : V) (key : Option String) :
    Except Unit (Board V × (String × String × V)) :=
  let skey := key.getD (hashKey value)
  match dictGet b secName with
  | none => .error ()
  | some sec => .ok (dictSet b secName (dictSet sec skey value), (secName, skey, value))

/-- `BulletinBoard.add_section` (lines 162-173). -/
def addSection {V : Type} (b : Board V) (name : String) : Board V :=
  dictSet b name []

/-- `World.set_bulletin_board` (lines 662-666): fresh board when none is
given, then the three standard sections are added. -/
def setBulletinBoard {V : Type} (b : Option (Board V)) : Board V :=
  addSection (addSection (addSection (b.getD []) "breaches") "stats") "settings"

/-! ## Data model: Contract and Breach (`situated.py` lines 69-122)

Payload types that no claim inspects (agreements, annotations, issues,
mechanism state) are embedded as strings or string maps. -/

/-- The `Contract` dataclass (lines 69-98). -/
structure Contract where
  partners : List String := []
  agreement : Option String := none
  annotation : List (String × String) := []
  issues : List String := []
  signedAt : Option Nat := none
  concludedAt : Option Nat := none
  toBeSignedAt : Option Nat := none
  signatures : List (String × String) := []
  mechanismState : Option String := none
  id : String := ""
deriving DecidableEq, Repr

/-- The `Breach` dataclass (lines 101-121).  `level: float ∈ [0,1]` is
embedded as a rational. -/
structure Breach where
  contract : Contract
  perpetrator : String
  btype : String
  victims : List String := []
  level : ℚ := 1
  step : Int := -1
  id : String := ""
deriving DecidableEq, Repr

/-! ## Contract signing (`World._sign_contract`, lines 1056-1072) -/

/-- An agent callback fired by `_sign_contract`: either
`partner.on_contract_signed(contract)` or
`partner.on_contract_cancelled(contract, rejectors)`. -/
inductive SignNotice : Type
  | signed (agent : String)
  | cancelled (agent : String) (rejectors : List String)
deriving DecidableEq, Repr

/-- `World._sign_contract` (lines 1056-1072).  `signOf agent c` is
`self.agents[agent].sign_contract(contract=c)`; `finTime`/`execTime` are the
abstract `_contract_finalization_time` / `_contract_executation_time` hooks.
Returns the Python return flag, the (possibly updated) contract and the agent
callbacks issued, in partner order. -/
def signContract (signOf : String → Contract → Option String)
    (finTime execTime : Contract → Nat) (nSteps currentStep : Nat)
    (c : Contract) : Bool × Contract × List SignNotice :=
  if nSteps ≤ finTime c ∨ execTime c < currentStep then
    (false, c, [])
  else
    let signatures := c.partners.map (fun p => (p, signOf p c))
    let rejectors := (signatures.filter (fun ps => ps.2.isNone)).map (·.1)
    if rejectors.isEmpty then
      (true,
       { c with
          signatures := signatures.filterMap (fun as => as.2.map (fun s => (as.1, s)))
          signedAt := some currentStep },
       c.partners.map .signed)
    else
      (false, c, c.partners.map (fun p => .cancelled p rejectors))

/-! ## MechanismFactory (`situated.py` lines 337-429) -/

def protocolClassNameField : String := "__mechanism_class_name"

/-- The `mechanism_name` / `mechanism_params` preparation of
`MechanismFactory._start_negotiation` (lines 378-392): resolve the class-name
remap recorded under `PROTOCOL_CLASS_NAME_FIELD` (read back as a name through
`nameOf`), `mechanism_params.update(mechanisms[mechanism_name])` when the
registry entry is a non-empty dict (updating with the empty dict is the
identity, so the truthiness guard needs no separate case), strip the marker
key, then assign the forced entries (`n_steps`, `time_limit`, `issues`,
`annotation`, `name`, lines 388-392).  `.error` covers the line-378 rejection
of an unregistered name and the `KeyError` of `mechanisms[mechanism_name]`
when the remapped name is unregistered. -/
def prepareMechanismParams {V : Type} (nameOf : V → String)
    (mechanisms : Option (List (String × List (String × V))))
    (mechanismName : String) (callerParams : Option (List (String × V)))
    (forced : List (String × V)) : Except Unit (String × List (String × V)) :=
  match mechanisms with
  | none =>
      .ok (mechanismName,
        dictUpdate ((callerParams.getD []).filter
          (fun kv => kv.1 != protocolClassNameField)) forced)
  | some reg =>
      match dictGet reg mechanismName with
      | none => .error ()
      | some entry =>
        let name1 := (dictGet entry protocolClassNameField).elim mechanismName nameOf
        match dictGet reg name1 with
        | none => .error ()
        | some defaults =>
          .ok (name1,
            dictUpdate ((dictUpdate (callerParams.getD []) defaults).filter
              (fun kv => kv.1 != protocolClassNameField)) forced)

/-- The `NegotiationInfo` dataclass (lines 327-334); the live protocol
instance is embedded as a numeric handle. -/
structure NegotiationInfo where
  mechanism : Option Nat
  partners : List String
  annotation : List (String × String)
  issues : List String
  rejectors : Option (List String) := none
deriving DecidableEq, Repr

/-- The invitation tail of `MechanismFactory._start_negotiation`
(lines 404-423): default the roles, collect
`partner.before_joining_negotiation(...)` responses (`before partner role`,
`none` refuses), and either reject all-or-nothing or build the session.  The
second component is the list of `mechanism.add(negotiator, role)` calls
performed by `_create_negotiation_session` (lines 366-367). -/
def inviteAndSetup (before : String → Option String → Option String)
    (mechId : Nat) (partners : List String)
    (roles : Option (List (Option String)))
    (ann : List (String × String)) (issues : List String) :
    NegotiationInfo × List (String × Option String) :=
  let rolesL := roles.getD (List.replicate partners.length none)
  let responses := (rolesL.zip partners).map (fun rp => before rp.2 rp.1)
  if responses.all (·.isSome) then
    ({ mechanism := some mechId, partners := partners, annotation := ann
     , issues := issues, rejectors := none },
     (responses.zip rolesL).filterMap (fun nr => nr.1.map (fun n => (n, nr.2))))
  else
    let rejectors := ((partners.zip responses).filter (fun pr => pr.2.isNone)).map (·.1)
    ({ mechanism := none, partners := partners, annotation := ann
     , issues := issues, rejectors := some rejectors }, [])

/-! ## Breach resolution (`World.step`, lines 804-811)

For one contract's outstanding breaches the loop keeps a `contract_resolved`
flag, *registers* a breach when the flag is already set, and otherwise offers
it to `self._process_breach(breach)`, setting the flag on success. -/

/-- Lines 806-811.  `processBreach` is the stateful `_process_breach` hook;
returns the final hook state, the breaches passed to `_register_breach`, and
the final `contract_resolved` flag. -/
def resolveBreaches {σ : Type} (processBreach : σ → Breach → σ × Bool) :
    σ → List Breach → Bool → σ × List Breach × Bool
  | s, [], resolved => (s, [], resolved)
  | s, b :: rest, resolved =>
    if resolved then
      let (s', recorded, r') := resolveBreaches processBreach s rest resolved
      (s', b :: recorded, r')
    else
      let (s', ok) := processBreach s b
      resolveBreaches processBreach s' rest ok

/-! ## Contract-execution passes (`World.step`, lines 785-803)

`while something_executed:` with the flag cleared at the top of every pass;
the statement that would re-arm it after a breach-free execution is commented
out in the source
(`# something_executed = True # @todo I am disabling this for now ...`). -/

/-- One pass of the `for contract in current_contracts:` body (lines 794-802).
`execC` is the stateful `_execute_contract` hook; accumulates the `executed`
set (as a list, in execution order) and `breached_contracts`, and carries the
`something_executed` flag, which no statement of the pass assigns. -/
def execPass {σ : Type} (execC : σ → Contract → σ × List Breach) :
    σ → List Contract → List Contract → List (Contract × List Breach) → Bool →
    σ × List Contract × List (Contract × List Breach) × Bool
  | s, [], ex, br, flag => (s, ex, br, flag)
  | s, c :: rest, ex, br, flag =>
    let r := execC s c
    if r.2.length < 1 then
      execPass execC r.1 rest (ex ++ [c]) br flag
    else
      execPass execC r.1 rest ex (br ++ [(c, r.2)]) flag

/-- The `while something_executed:` loop (lines 791-803), fuel-bounded: each
iteration clears the flag, runs a pass, rebuilds `current_contracts` from
`breached_contracts`, and continues only if the flag was set. -/
def execContractsLoop {σ : Type} (execC : σ → Contract → σ × List Breach) :
    Nat → σ → List Contract → List Contract → List (Contract × List Breach) →
    σ × List Contract × List (Contract × List Breach)
  | 0, s, _cur, ex, br => (s, ex, br)
  | fuel + 1, s, cur, ex, br =>
    let r := execPass execC s cur ex br false
    if r.2.2.2 then
      execContractsLoop execC fuel r.1 (r.2.2.1.map (·.1)) r.2.1 r.2.2.1
    else (r.1, r.2.1, r.2.2.1)

/-- Entry point of the execution phase: start from an empty `executed` set and
empty `breached_contracts` with `something_executed = True` (so the first pass
always runs); the fuel bound is immaterial because the re-arming statement is
disabled (proved below). -/
def executeDueContracts {σ : Type} (execC : σ → Contract → σ × List Breach)
    (s : σ) (contracts : List Contract) :
    σ × List Contract × List (Contract × List Breach) :=
  execContractsLoop execC (contracts.length + 1) s contracts [] []

/-! ## Tournament reservoir sampling (`iter_sample_fast`, lines 1450-1463)

`random.shuffle` and `random.randint` are abstracted into a shuffling function
(assumed to permute its input, which Fisher-Yates does for every random
sequence) and a stream `rnd` of draws; `random.randint(0, i)` is embedded as
`rnd i % (i + 1)`, an arbitrary in-range value. -/

/-- The replacement loop `for i, v in enumerate(iterator, n): ...`
(lines 1459-1462). -/
def reservoirLoop {α : Type} (rnd : Nat → Nat) (n : Nat) :
    List α → Nat → List α → List α
  | [], _i, results => results
  | v :: rest, i, results =>
    let r := rnd i % (i + 1)
    reservoirLoop rnd n rest (i + 1) (if r < n then results.set r v else results)

/-- `iter_sample_fast(iterator, n)` (lines 1450-1463): draw the first `n`
stream elements (raising `ValueError("Sample larger than population.")` if the
stream runs out), shuffle them, then run the replacement loop over the rest
with the enumeration starting at `n`. -/
def iterSampleFast {α : Type} (shuffle : List α → List α) (rnd : Nat → Nat)
    (stream : List α) (n : Nat) : Except String (List α) :=
  if stream.length < n then .error "Sample larger than population."
  else
    .ok (reservoirLoop rnd n (stream.drop n) n (shuffle (stream.take n)))

/-! ## The World stepping loop (`World`, lines 562-856)

The abstract methods a concrete `World` subclass supplies, the agents'
callbacks, and the negotiation-running phase are embedded as hook functions.
Hooks act on the "rest of the world" state `WSt` (registries, ledger, board,
counters) or on the opaque domain state `σ`; where the source reads
`self.current_step` inside a hook, the hook takes the step as an argument.
No code reachable from `step` other than line 844 (`self.current_step += 1`)
assigns `current_step`, and nothing reachable from `step` assigns `n_steps`,
which the hook signatures reflect. -/

/-- The mutable world state other than the step counter: `negotiations`
(mechanism uuid ↦ the `mechanism.completed` flag, the only mechanism attribute
the purge phase reads), `unsigned_contracts` (signing step ↦ contracts),
the bulletin board, the three per-step counters and `saved_contracts`,
plus the opaque subclass domain state. -/
structure WSt (σ : Type) where
  negotiations : List (String × Bool)
  unsignedContracts : List (Nat × List Contract)
  board : Board String
  nContractsSignedC : Nat := 0
  nContractsConcludedC : Nat := 0
  nNegotiationsC : Nat := 0
  savedContracts : List String := []
  domain : σ

/-- `self._stats[key].append(n)` on the `defaultdict(list)` of statistics. -/
def statsAppend (stats : List (String × List Nat)) (key : String) (n : Nat) :
    List (String × List Nat) :=
  dictSet stats key (((dictGet stats key).getD []) ++ [n])

/-- `World._register_breach` (lines 708-709): record the breach, keyed by its
id, on the board's `breaches` section.  The section always exists (it is
created by `set_bulletin_board` at construction); a missing section would
raise, which the fallback branch marks. -/
def registerBreach (breachRecord : Breach → String) (b : Board String)
    (br : Breach) : Board String :=
  match record (fun _ => "") b "breaches" (breachRecord br) (some br.id) with
  | .ok r => r.1
  | .error _ => b

/-- `World.on_contract_signed` (lines 1074-1089): bump the signed counter,
remove the contract from this step's unsigned set (set membership is by the
contract's unique id, line 96-98), and append its permanent record. -/
def onContractSigned {σ : Type} (contractRecord : Contract → String)
    (currentStep : Nat) (st : WSt σ) (c : Contract) : WSt σ :=
  { st with
    nContractsSignedC := st.nContractsSignedC + 1
    unsignedContracts := dictSet st.unsignedContracts currentStep
      (((dictGet st.unsignedContracts currentStep).getD []).filter
        (fun c' => c'.id ≠ c.id))
    savedContracts := st.savedContracts ++ [contractRecord c] }

/-- A `World` (configuration, subclass hooks and mutable state). -/
structure World (σ : Type) where
  -- constructor configuration (lines 570-624)
  nSteps : Nat
  negotiationSpeed : Option Nat := none
  defaultSigningDelay : Nat := 0
  -- `_run_negotiations` (lines 722-742, batch or interleaved): steps
  -- mechanisms in shuffled order, finalizing agreements and failures; it
  -- reads but never assigns `current_step`
  runNegotiationsHook : Option Nat → Nat → WSt σ → WSt σ
  -- stepping all `ActiveEntity`s in priority order (lines 776-781)
  entitiesStepHook : Nat → WSt σ → WSt σ
  -- `_get_executable_contracts`, `_contract_execution_order`,
  -- `_execute_contract`, `_process_breach`, `_contract_size`,
  -- `_delete_executed_contracts` (abstract methods, lines 1109-1223)
  getExecutable : σ → List Contract
  execOrder : List Contract → List Contract
  execContract : σ → Contract → σ × List Breach
  processBreach : σ → Breach → σ × Bool
  contractSize : Contract → Nat
  deleteExecuted : σ → σ
  -- `_simulation_step` (line 818)
  simulationStepHook : Nat → WSt σ → WSt σ
  -- `_breach_record` / `_contract_record`
  breachRecord : Breach → String
  contractRecord : Contract → String
  -- `self.agents[partner].sign_contract`, `_contract_finalization_time`,
  -- `_contract_executation_time` (for `_sign_contract`)
  signOf : String → Contract → Option String
  finalizationTime : Contract → Nat
  executionTime : Contract → Nat
  -- `_pre_step_stats` / `_post_step_stats`
  preStepStats : List (String × List Nat) → List (String × List Nat)
  postStepStats : List (String × List Nat) → List (String × List Nat)
  -- mutable state
  currentStep : Nat := 0
  st : WSt σ
  stats : List (String × List Nat) := []

/-- The body of `World.step` after the overrun guard (lines 720-847). -/
def stepBody {σ : Type} (w : World σ) : World σ :=
  -- stats initialization (lines 746-752)
  let stats0 := statsAppend (w.preStepStats w.stats)
    "n_registered_negotiations_before" w.st.negotiations.length
  -- sign contracts scheduled for this step (lines 757-766)
  let unsigned := (dictGet w.st.unsignedContracts w.currentStep).getD []
  let signResults := unsigned.map (fun c =>
    signContract w.signOf w.finalizationTime w.executionTime w.nSteps w.currentStep c)
  let signedC := (signResults.filter (fun r => r.1)).map (fun r => r.2.1)
  let nCancelled := (signResults.filter (fun r => !r.1)).length
  let st1 := signedC.foldl (onContractSigned w.contractRecord w.currentStep) w.st
  -- batch-mode negotiations (lines 770-771)
  let st2 := if w.negotiationSpeed.isNone
    then w.runNegotiationsHook none w.currentStep st1 else st1
  -- step all entities (lines 776-781)
  let st3 := w.entitiesStepHook w.currentStep st2
  -- execute contracts due at this step (lines 783-813)
  let currentContracts := w.getExecutable st3.domain
  let execResult :=
    if currentContracts.isEmpty then (st3, 0, 0, 0)
    else
      let r := executeDueContracts w.execContract st3.domain (w.execOrder currentContracts)
      -- breach resolution per breached contract (lines 804-811); the hook
      -- state `σ` and the board are disjoint, so registering the collected
      -- breaches after the loop equals the source's interleaved order
      let rb := r.2.2.foldl (fun acc cb =>
        let q := resolveBreaches w.processBreach acc.1 cb.2 false
        (q.1, acc.2 ++ q.2.1)) (r.1, ([] : List Breach))
      let board' := rb.2.foldl (registerBreach w.breachRecord) st3.board
      ({ st3 with domain := w.deleteExecuted rb.1, board := board' },
       r.2.1.length,
       (r.2.2.map (fun cb => cb.2.length)).sum,
       (r.2.1.map w.contractSize).sum)
  let st4 := execResult.1
  -- world-specific simulation step (line 818)
  let st5 := w.simulationStepHook w.currentStep st4
  -- interleaved-mode negotiations (lines 821-822)
  let st6 := match w.negotiationSpeed with
    | some speed => w.runNegotiationsHook (some speed) w.currentStep st5
    | none => st5
  -- purge completed negotiations (lines 826-828)
  let st7 := { st6 with negotiations := st6.negotiations.filter (fun kn => !kn.2) }
  -- stats updates (lines 832-840)
  let stats1 := statsAppend stats0 "n_contracts_executed" execResult.2.1
  let stats2 := statsAppend stats1 "n_contracts_cancelled" nCancelled
  let stats3 := statsAppend stats2 "n_breaches" execResult.2.2.1
  let stats4 := statsAppend stats3 "n_contracts_signed" st7.nContractsSignedC
  let stats5 := statsAppend stats4 "n_contracts_concluded" st7.nContractsConcludedC
  let stats6 := statsAppend stats5 "n_negotiations" st7.nNegotiationsC
  let stats7 := statsAppend stats6 "n_registered_negotiations_after" st7.negotiations.length
  let stats8 := statsAppend stats7 "activity_level" execResult.2.2.2
  let stats9 := w.postStepStats stats8
  -- counter resets (lines 841-843) and the increment (line 844)
  { w with
    currentStep := w.currentStep + 1
    stats := stats9
    st := { st7 with nContractsSignedC := 0, nContractsConcludedC := 0, nNegotiationsC := 0 } }

/-- `World.step` (lines 715-847): fail fast on overrun (lines 717-719,
only a log message is emitted), otherwise run the body and report success. -/
def step {σ : Type} (w : World σ) : Bool × World σ :=
  if w.nSteps ≤ w.currentStep then (false, w) else (true, stepBody w)

/-- The loop of `World.run` (lines 849-856): at most `n_steps` iterations,
stopping early when the wall-clock budget is exhausted (the real-time check,
abstracted as the `timeUp` oracle consulted once per iteration) or when
`step()` reports failure. -/
def runAux {σ : Type} (timeUp : Nat → Bool) : Nat → World σ → World σ
  | 0, w => w
  | fuel + 1, w =>
    if timeUp fuel then w
    else
      let r := step w
      if r.1 then runAux timeUp fuel r.2 else r.2

/-- `World.run` (lines 849-856). -/
def run {σ : Type} (timeUp : Nat → Bool) (w : World σ) : World σ :=
  runAux timeUp w.nSteps w

/-! ## Concrete instances used to evaluate the definitions -/

/-- A contract between two partners. -/
def contractA : Contract := { partners := ["a1", "a2"], id := "cA" }

/-- A second contract, sharing a partner with `contractA`. -/
def contractB : Contract := { partners := ["a1", "a3"], id := "cB" }

/-- A first breach on `contractA`. -/
def breachA1 : Breach :=
  { contract := contractA, perpetrator := "a1", btype := "product", id := "bA1" }

/-- A second breach on `contractA`. -/
def breachA2 : Breach :=
  { contract := contractA, perpetrator := "a1", btype := "money", id := "bA2" }

/-- A breach on `contractB`. -/
def breachB1 : Breach :=
  { contract := contractB, perpetrator := "a3", btype := "product", id := "bB1" }

/-- An `_execute_contract` hook over a log state: records each attempted
contract id, executes `contractA` breach-free and breaches on everything
else. -/
def execLogHook : List String → Contract → List String × List Breach :=
  fun log c => (log ++ [c.id], if c.id = "cA" then [] else [breachB1])

/-- A trivial rest-of-world state over a unit domain. -/
def trivialWSt : WSt Unit :=
  { negotiations := [], unsignedContracts := [], board := setBulletinBoard none
  , domain := () }

/-- A world with trivial hooks whose step counter has reached `n_steps`. -/
def exhaustedWorld : World Unit :=
  { nSteps := 5
  , runNegotiationsHook := fun _ _ st => st
  , entitiesStepHook := fun _ st => st
  , getExecutable := fun _ => []
  , execOrder := fun cs => cs
  , execContract := fun s _ => (s, [])
  , processBreach := fun s _ => (s, false)
  , contractSize := fun _ => 0
  , deleteExecuted := fun s => s
  , simulationStepHook := fun _ st => st
  , breachRecord := fun b => b.id
  , contractRecord := fun c => c.id
  , signOf := fun a _ => some a
  , finalizationTime := fun _ => 0
  , executionTime := fun _ => 10
  , preStepStats := fun s => s
  , postStepStats := fun s => s
  , currentStep := 5
  , st := trivialWSt }

/-- A signing oracle under which only agent `a1` signs. -/
def signOnlyA1 : String → Contract → Option String :=
  fun a _ => if a = "a1" then some "sig" else none

/-- A joining oracle under which only agent `a1` joins negotiations. -/
def joinOnlyA1 : String → Option String → Option String :=
  fun a _ => if a = "a1" then some ("neg-" ++ a) else none

/-- A two-section bulletin board over string values. -/
def sampleBoard : Board String :=
  [("sec1", [("k1", "v1"), ("k2", "v2")]), ("sec2", [("k2", "w2")])]

/-- `sampleBoard` extended with an existing-but-empty section. -/
def sampleBoardE : Board String :=
  [("sec1", [("k1", "v1"), ("k2", "v2")]), ("sec2", [("k2", "w2")]), ("blank", [])]

/-!
# Theorems

General lemmas about the embedded dictionary operations first, then one
theorem per specification claim (with its witness or counterexample).
-/

theorem dictGet_cons {K V : Type} [DecidableEq K] (k0 : K) (v0 : V)
    (tl : List (K × V)) (k : K) :
    dictGet ((k0, v0) :: tl) k = if k0 = k then some v0 else dictGet tl k := by
  by_cases h : k0 = k <;> simp [dictGet, List.find?_cons, h]

theorem dictGet_append {K V : Type} [DecidableEq K] (d e : List (K × V)) (k : K) :
    dictGet (d ++ e) k = (dictGet d k).elim (dictGet e k) some := by
  induction d with
  | nil => simp [dictGet]
  | cons hd tl ih =>
    obtain ⟨k0, v0⟩ := hd
    by_cases h : k0 = k <;>
      simp [List.cons_append, dictGet_cons, h, ih]

theorem dictGet_dictSet {K V : Type} [DecidableEq K] (d : List (K × V))
    (k k' : K) (v : V) :
    dictGet (dictSet d k v) k' = if k = k' then some v else dictGet d k' := by
  induction d with
  | nil =>
    by_cases h : k = k' <;> simp [dictSet, dictGet_cons, dictGet, h]
  | cons hd tl ih =>
    obtain ⟨k0, v0⟩ := hd
    by_cases h0 : k0 = k
    · subst h0
      simp only [dictSet, if_pos rfl]
      by_cases h : k0 = k' <;> simp [dictGet_cons, h]
    · simp only [dictSet, if_neg h0]
      by_cases h1 : k0 = k'
      · subst h1
        have hk : ¬k = k0 := fun he => h0 he.symm
        simp [dictGet_cons, hk]
      · simp [dictGet_cons, h1, ih]

theorem dictGet_dictUpdate {K V : Type} [DecidableEq K] (d e : List (K × V)) (k : K) :
    dictGet (dictUpdate d e) k =
      (dictGet e.reverse k).elim (dictGet d k) some := by
  induction e generalizing d with
  | nil => simp [dictUpdate, dictGet, List.find?]
  | cons hd tl ih =>
    obtain ⟨k0, v0⟩ := hd
    show dictGet (dictUpdate (dictSet d k0 v0) tl) k = _
    rw [ih]
    simp only [List.reverse_cons, dictGet_append]
    rcases hfind : dictGet tl.reverse k with _ | v1
    · simp only [Option.elim]
      rw [dictGet_dictSet]
      by_cases h : k0 = k <;> simp [dictGet_cons, dictGet, h]
    · simp [Option.elim]

theorem dictGet_eq_none_iff {K V : Type} [DecidableEq K] (d : List (K × V)) (k : K) :
    dictGet d k = none ↔ k ∉ d.map Prod.fst := by
  induction d with
  | nil => simp [dictGet]
  | cons hd tl ih =>
    obtain ⟨k0, v0⟩ := hd
    by_cases h : k0 = k
    · subst h
      simp [dictGet_cons]
    · have h' : ¬k = k0 := fun he => h he.symm
      simp [dictGet_cons, h, h', ih]

/-- C6: calling `step()` on a World whose `current_step` has reached
`n_steps` returns `false` and leaves the entire World state — step counter,
negotiations, unsigned contracts, board, statistics and counters —
unchanged. -/
theorem step_overrun_noop {σ : Type} (w : World σ) (h : w.nSteps ≤ w.currentStep) :
    step w = (false, w) := by
  simp [step, h]

/-- Witness for `step_overrun_noop` on a concrete exhausted world. -/
theorem step_overrun_noop_witness :
    exhaustedWorld.nSteps ≤ exhaustedWorld.currentStep
    ∧ step exhaustedWorld = (false, exhaustedWorld) :=
  ⟨by decide, step_overrun_noop exhaustedWorld (by decide)⟩

/-- C10: `BulletinBoard.record` on a section that was never created raises
(`self._data[section][skey] = value` is a `KeyError`): no board comes back,
so nothing is created or stored; the section's existence is a
precondition. -/
theorem record_requires_section {V : Type} (hashKey : V → String) (b : Board V)
    (secName : String) (v : V) (key : Option String)
    (h : dictGet b secName = none) :
    record hashKey b secName v key = .error () := by
  simp [record, h]

/-- Witness for `record_requires_section`: recording on a section absent from
a freshly initialized board (which has only `breaches`, `stats` and
`settings`) fails. -/
theorem record_requires_section_witness :
    dictGet (setBulletinBoard (V := String) none) "prices" = none
    ∧ record (fun _ => "hk") (setBulletinBoard none) "prices" "v" none = .error () :=
  ⟨by decide, record_requires_section (fun _ => "hk") _ "prices" "v" none (by decide)⟩

/-- C1 (failing input): the breach-recording loop of `World.step`
(lines 806-811) registers the breaches *after* the first resolved one and
registers nothing when no breach resolves — the reverse of resolving
suppressing recording and non-resolution recording everything.  With breaches
`[breachA1, breachA2]` on one contract: a hook resolving `breachA1` makes
`breachA2` the recorded breach, and a hook resolving nothing (the
`BreachProcessing.NONE` policy, whose own docstring says the breach "should
always be reported in the breach list") records nothing. -/
theorem breach_recording_inverted :
    (resolveBreaches (fun (s : Unit) b => (s, b.id = "bA1")) ()
        [breachA1, breachA2] false).2.1 = [breachA2]
    ∧ (resolveBreaches (fun (s : Unit) _ => (s, false)) ()
        [breachA1, breachA2] false).2.1 = [] :=
  ⟨rfl, rfl⟩

/-- The `something_executed` flag is never assigned inside a pass (the
re-arming statement is commented out in the source). -/
theorem execPass_flag {σ : Type} (execC : σ → Contract → σ × List Breach) :
    ∀ (cur : List Contract) (s : σ) (ex : List Contract)
      (br : List (Contract × List Breach)) (flag : Bool),
      (execPass execC s cur ex br flag).2.2.2 = flag := by
  intro cur
  induction cur with
  | nil => intro s ex br flag; rfl
  | cons c rest ih =>
    intro s ex br flag
    simp only [execPass]
    by_cases h : (execC s c).2.length < 1 <;> simp [h, ih]

/-- One iteration of the `while something_executed:` loop always exits. -/
theorem execLoop_one_pass {σ : Type} (execC : σ → Contract → σ × List Breach)
    (s : σ) (cur ex : List Contract) (br : List (Contract × List Breach)) (n : Nat) :
    execContractsLoop execC (n + 1) s cur ex br =
      ((execPass execC s cur ex br false).1,
       (execPass execC s cur ex br false).2.1,
       (execPass execC s cur ex br false).2.2.1) := by
  have hflag := execPass_flag execC cur s ex br false
  simp only [execContractsLoop]
  rw [hflag]
  simp

/-- C2 amended: contract execution makes exactly one pass over the executable
contracts.  A contract whose execution produced breaches is never retried —
regardless of whether other contracts executed breach-free in the pass —
because the statement re-arming the loop flag after a breach-free execution
is disabled in the source, so the `while something_executed:` loop (any fuel
bound at least one) returns the result of a single pass. -/
theorem execution_single_pass {σ : Type} (execC : σ → Contract → σ × List Breach)
    (s : σ) (contracts : List Contract) (fuel : Nat) (hfuel : 1 ≤ fuel) :
    execContractsLoop execC fuel s contracts [] [] =
      ((execPass execC s contracts [] [] false).1,
       (execPass execC s contracts [] [] false).2.1,
       (execPass execC s contracts [] [] false).2.2.1)
    ∧ executeDueContracts execC s contracts =
      ((execPass execC s contracts [] [] false).1,
       (execPass execC s contracts [] [] false).2.1,
       (execPass execC s contracts [] [] false).2.2.1) := by
  obtain ⟨n, rfl⟩ : ∃ n, fuel = n + 1 :=
    ⟨fuel - 1, (Nat.succ_pred_eq_of_pos hfuel).symm⟩
  exact ⟨execLoop_one_pass execC s contracts [] [] n,
         execLoop_one_pass execC s contracts [] [] contracts.length⟩

/-- Witness for `execution_single_pass` on a concrete two-contract run. -/
theorem execution_single_pass_witness :
    (1 : Nat) ≤ 2
    ∧ (execContractsLoop execLogHook 2 [] [contractA, contractB] [] [] =
        ((execPass execLogHook [] [contractA, contractB] [] [] false).1,
         (execPass execLogHook [] [contractA, contractB] [] [] false).2.1,
         (execPass execLogHook [] [contractA, contractB] [] [] false).2.2.1)
       ∧ executeDueContracts execLogHook [] [contractA, contractB] =
        ((execPass execLogHook [] [contractA, contractB] [] [] false).1,
         (execPass execLogHook [] [contractA, contractB] [] [] false).2.1,
         (execPass execLogHook [] [contractA, contractB] [] [] false).2.2.1)) :=
  ⟨by decide, execution_single_pass execLogHook [] [contractA, contractB] 2 (by decide)⟩

/-- C2 counterexample: `contractA` executes breach-free in the first pass
while `contractB` breaches, so under the claim `contractB` would remain in
the working set for a second pass and be attempted again; the execution log
shows it is attempted exactly once and the passes stop. -/
theorem execution_retry_counterexample :
    (executeDueContracts execLogHook [] [contractA, contractB]).2.1 = [contractA]
    ∧ (executeDueContracts execLogHook [] [contractA, contractB]).2.2
        = [(contractB, [breachB1])]
    ∧ (executeDueContracts execLogHook [] [contractA, contractB]).1 = ["cA", "cB"]
    ∧ ((executeDueContracts execLogHook [] [contractA, contractB]).1.count "cB") = 1 :=
  ⟨rfl, rfl, rfl, rfl⟩

theorem dictGet_filter_ne {V : Type} (l : List (String × V)) (f k : String)
    (hk : k ≠ f) :
    dictGet (l.filter (fun kv => kv.1 != f)) k = dictGet l k := by
  induction l with
  | nil => rfl
  | cons hd tl ih =>
    obtain ⟨k0, v0⟩ := hd
    by_cases h0 : k0 = f
    · subst h0
      have hne : ¬k0 = k := fun he => hk (he.symm.trans rfl)
      simp [List.filter_cons, dictGet_cons, hne, ih]
    · simp [List.filter_cons, h0, dictGet_cons, ih]

theorem dictGet_reverse_of_nodup {K V : Type} [DecidableEq K]
    (l : List (K × V)) (k : K) (h : (l.map Prod.fst).Nodup) :
    dictGet l.reverse k = dictGet l k := by
  induction l with
  | nil => rfl
  | cons hd tl ih =>
    obtain ⟨k0, v0⟩ := hd
    simp only [List.map_cons, List.nodup_cons] at h
    simp only [List.reverse_cons, dictGet_append, dictGet_cons]
    rw [ih h.2]
    by_cases hk : k0 = k
    · subst hk
      have : dictGet tl k0 = none := (dictGet_eq_none_iff tl k0).2 h.1
      simp [this, dictGet_cons]
    · rcases hget : dictGet tl k with _ | v <;> simp [dictGet_cons, hk, dictGet]

/-- C3 amended: in `MechanismFactory._start_negotiation` the parameter map
passed to the protocol constructor is the caller-supplied map updated *by*
the registry defaults (`mechanism_params.update(mechanisms[mechanism_name])`):
for every key present in both (other than the class-name marker and the keys
the factory forcibly assigns afterwards), the per-protocol *default* wins
over the caller-supplied value; caller values survive only at keys the
registry entry does not mention. -/
theorem mechanism_params_default_wins {V : Type} (nameOf : V → String)
    (reg : List (String × List (String × V))) (mechName : String)
    (entry caller forced : List (String × V)) (k : String)
    (hreg : dictGet reg mechName = some entry)
    (hmark : dictGet entry protocolClassNameField = none)
    (hnodup : (entry.map Prod.fst).Nodup)
    (hk : k ≠ protocolClassNameField)
    (hkf : k ∉ forced.map Prod.fst) :
    ∃ params,
      prepareMechanismParams nameOf (some reg) mechName (some caller) forced
        = .ok (mechName, params)
      ∧ (∀ v, dictGet entry k = some v → dictGet params k = some v)
      ∧ (dictGet entry k = none → dictGet params k = dictGet caller k) := by
  refine ⟨dictUpdate ((dictUpdate caller entry).filter
      (fun kv => kv.1 != protocolClassNameField)) forced, ?_, ?_, ?_⟩
  · simp [prepareMechanismParams, hreg, hmark]
  all_goals
    have hforced : dictGet forced.reverse k = none := by
      refine (dictGet_eq_none_iff _ _).2 ?_
      simpa using hkf
    have hchain : dictGet (dictUpdate ((dictUpdate caller entry).filter
        (fun kv => kv.1 != protocolClassNameField)) forced) k
        = (dictGet entry k).elim (dictGet caller k) some := by
      rw [dictGet_dictUpdate, hforced]
      simp only [Option.elim]
      rw [dictGet_filter_ne _ _ _ hk, dictGet_dictUpdate,
        dictGet_reverse_of_nodup _ _ hnodup]
      cases dictGet entry k <;> rfl
  · intro v hv
    rw [hchain, hv]
    rfl
  · intro hv
    rw [hchain, hv]
    rfl

/-- C3 counterexample: with registry defaults `{"a": 1}` for protocol `p` and
caller-supplied parameters `{"a": 2}`, the map handed to the protocol
constructor carries the default value `1` at key `a`, not the caller's `2`:
`dict.update(defaults)` makes the defaults win. -/
theorem mechanism_params_caller_loses :
    (prepareMechanismParams (fun _ : Nat => "") (some [("p", [("a", 1)])]) "p"
        (some [("a", 2)]) []) = .ok ("p", [("a", 1)])
    ∧ dictGet [(("a" : String), (1 : Nat))] "a" ≠ some 2 :=
  ⟨rfl, by decide⟩

/-- Witness for `mechanism_params_default_wins` at a concrete registry:
defaults `{"a": 1, "b": 7}`, caller parameters `{"a": 2, "c": 3}`, forced key
`n_steps`. -/
theorem mechanism_params_default_wins_witness :
    dictGet [("p", [("a", 1), ("b", 7)])] "p" = some [(("a" : String), (1 : Nat)), ("b", 7)]
    ∧ dictGet [(("a" : String), (1 : Nat)), ("b", 7)] protocolClassNameField = none
    ∧ ([(("a" : String), (1 : Nat)), ("b", 7)].map Prod.fst).Nodup
    ∧ "a" ≠ protocolClassNameField
    ∧ "a" ∉ ([(("n_steps" : String), (9 : Nat))].map Prod.fst)
    ∧ ∃ params,
        prepareMechanismParams (fun _ : Nat => "") (some [("p", [("a", 1), ("b", 7)])])
            "p" (some [("a", 2), ("c", 3)]) [("n_steps", 9)]
          = .ok ("p", params)
        ∧ (∀ v, dictGet [(("a" : String), (1 : Nat)), ("b", 7)] "a" = some v →
              dictGet params "a" = some v)
        ∧ (dictGet [(("a" : String), (1 : Nat)), ("b", 7)] "a" = none →
              dictGet params "a" = dictGet [(("a" : String), (2 : Nat)), ("c", 3)] "a") :=
  ⟨by decide, by decide, by decide, by decide, by decide,
   mechanism_params_default_wins (fun _ : Nat => "") [("p", [("a", 1), ("b", 7)])] "p"
     [("a", 1), ("b", 7)] [("a", 2), ("c", 3)] [("n_steps", 9)] "a"
     (by decide) (by decide) (by decide) (by decide) (by decide)⟩

theorem filter_isNone_map_pair {α β : Type} (f : α → Option β) (l : List α) :
    ((l.map (fun p => (p, f p))).filter (fun ps => ps.2.isNone)).map Prod.fst
      = l.filter (fun p => (f p).isNone) := by
  induction l with
  | nil => rfl
  | cons hd tl ih =>
    by_cases h : (f hd).isNone <;> simp [List.filter_cons, h, ih]

/-- C4: at the signing attempt of a contract whose timing guard admits it,
`signed_at` is set (to the current step) iff every partner's `sign_contract`
returned a non-null signature; when any partner returns null the contract
comes back unchanged (no partner bound, no signature stored, no exception —
the function returns normally) and every partner receives an
`on_contract_cancelled` callback carrying exactly the refusers. -/
theorem sign_contract_atomic (signOf : String → Contract → Option String)
    (finTime execTime : Contract → Nat) (nSteps currentStep : Nat) (c : Contract)
    (hguard : ¬(nSteps ≤ finTime c ∨ execTime c < currentStep))
    (hfresh : c.signedAt = none) :
    ((signContract signOf finTime execTime nSteps currentStep c).2.1.signedAt
        = some currentStep
      ↔ ∀ p ∈ c.partners, signOf p c ≠ none)
    ∧ ((∃ p ∈ c.partners, signOf p c = none) →
        (signContract signOf finTime execTime nSteps currentStep c).1 = false
        ∧ (signContract signOf finTime execTime nSteps currentStep c).2.1 = c
        ∧ (signContract signOf finTime execTime nSteps currentStep c).2.2
            = c.partners.map (fun p => SignNotice.cancelled p
                (c.partners.filter (fun p' => (signOf p' c).isNone)))) := by
  simp only [signContract, if_neg hguard]
  rw [filter_isNone_map_pair (fun p => signOf p c) c.partners]
  by_cases hrj : c.partners.filter (fun p => (signOf p c).isNone) = []
  · have hall : ∀ p ∈ c.partners, signOf p c ≠ none := by
      intro p hp hnone
      have := List.filter_eq_nil_iff.mp hrj p hp
      simp [hnone] at this
    constructor
    · simp only [hrj]
      simp
      exact hall
    · rintro ⟨p, hp, hnone⟩
      exact absurd hnone (hall p hp)
  · have hne : ¬(c.partners.filter (fun p => (signOf p c).isNone)).isEmpty := by
      simpa [List.isEmpty_iff] using hrj
    constructor
    · simp only [hne, if_false, Bool.false_eq_true, hfresh]
      constructor
      · intro hsome
        exact absurd hsome (by simp)
      · intro hall
        exfalso
        apply hrj
        refine List.filter_eq_nil_iff.mpr (fun p hp => ?_)
        have := hall p hp
        simp [Option.isNone_iff_eq_none, this]
    · intro _
      simp [hne]

/-- Witness for `sign_contract_atomic`: two partners, `a2` refuses. -/
theorem sign_contract_atomic_witness :
    ¬((5 : Nat) ≤ 1 ∨ (3 : Nat) < 2)
    ∧ contractA.signedAt = none
    ∧ (((signContract signOnlyA1 (fun _ => 1) (fun _ => 3) 5 2 contractA).2.1.signedAt
          = some 2
        ↔ ∀ p ∈ contractA.partners, signOnlyA1 p contractA ≠ none)
       ∧ ((∃ p ∈ contractA.partners, signOnlyA1 p contractA = none) →
          (signContract signOnlyA1 (fun _ => 1) (fun _ => 3) 5 2 contractA).1 = false
          ∧ (signContract signOnlyA1 (fun _ => 1) (fun _ => 3) 5 2 contractA).2.1
              = contractA
          ∧ (signContract signOnlyA1 (fun _ => 1) (fun _ => 3) 5 2 contractA).2.2
              = contractA.partners.map (fun p => SignNotice.cancelled p
                  (contractA.partners.filter
                    (fun p' => (signOnlyA1 p' contractA).isNone))))) :=
  ⟨by decide, rfl,
   sign_contract_atomic signOnlyA1 (fun _ => 1) (fun _ => 3) 5 2 contractA
     (by decide) rfl⟩

theorem zip_default_roles (before : String → Option String → Option String)
    (partners : List String) :
    ((List.replicate partners.length (none : Option String)).zip partners).map
        (fun rp => before rp.2 rp.1)
      = partners.map (fun p => before p none) := by
  induction partners with
  | nil => rfl
  | cons hd tl ih => simp [List.replicate, ih]

theorem zip_responses_filter (g : String → Option String) (partners : List String) :
    ((partners.zip (partners.map g)).filter (fun pr => pr.2.isNone)).map Prod.fst
      = partners.filter (fun p => (g p).isNone) := by
  induction partners with
  | nil => rfl
  | cons hd tl ih =>
    by_cases h : (g hd).isNone <;> simp [List.filter_cons, h, ih]

/-- C5: when at least two partners are invited (with default roles) and at
least one refuses to join, the produced `NegotiationInfo` has a null
mechanism, its `rejectors` is exactly the list of partners whose
`before_joining_negotiation` returned null, and no `mechanism.add`
registration of any accepting partner's negotiator is performed. -/
theorem invitation_all_or_nothing (before : String → Option String → Option String)
    (mechId : Nat) (partners : List String)
    (ann : List (String × String)) (iss : List String)
    (_h2 : 2 ≤ partners.length)
    (href : ∃ p ∈ partners, before p none = none) :
    (inviteAndSetup before mechId partners none ann iss).1.mechanism = none
    ∧ (inviteAndSetup before mechId partners none ann iss).1.rejectors
        = some (partners.filter (fun p => (before p none).isNone))
    ∧ (inviteAndSetup before mechId partners none ann iss).2 = [] := by
  obtain ⟨p0, hp0, hnone⟩ := href
  have hresp : ((List.replicate partners.length (none : Option String)).zip partners).map
      (fun rp => before rp.2 rp.1) = partners.map (fun p => before p none) :=
    zip_default_roles before partners
  have hfail : ((partners.map (fun p => before p none)).all (·.isSome)) = false := by
    rcases hb : (partners.map (fun p => before p none)).all (·.isSome) with _ | _
    · rfl
    · exfalso
      have := List.all_eq_true.mp hb (before p0 none) (List.mem_map_of_mem _ hp0)
      simp [hnone] at this
  simp only [inviteAndSetup, Option.getD, hresp, hfail, Bool.false_eq_true, if_false,
    zip_responses_filter]
  exact ⟨trivial, trivial, trivial⟩

/-- Witness for `invitation_all_or_nothing`: two partners, `a2` refuses to
join. -/
theorem invitation_all_or_nothing_witness :
    (2 : Nat) ≤ (["a1", "a2"] : List String).length
    ∧ (∃ p ∈ (["a1", "a2"] : List String), joinOnlyA1 p none = none)
    ∧ ((inviteAndSetup joinOnlyA1 7 ["a1", "a2"] none [] []).1.mechanism = none
       ∧ (inviteAndSetup joinOnlyA1 7 ["a1", "a2"] none [] []).1.rejectors
           = some ((["a1", "a2"] : List String).filter
               (fun p => (joinOnlyA1 p none).isNone))
       ∧ (inviteAndSetup joinOnlyA1 7 ["a1", "a2"] none [] []).2 = []) :=
  ⟨by decide, by decide,
   invitation_all_or_nothing joinOnlyA1 7 ["a1", "a2"] [] [] (by decide) (by decide)⟩

theorem stepBody_currentStep {σ : Type} (w : World σ) :
    (stepBody w).currentStep = w.currentStep + 1 := rfl

theorem stepBody_nSteps {σ : Type} (w : World σ) :
    (stepBody w).nSteps = w.nSteps := rfl

theorem runAux_invariant {σ : Type} (timeUp : Nat → Bool) :
    ∀ (fuel : Nat) (w : World σ), w.currentStep ≤ w.nSteps →
      w.currentStep ≤ (runAux timeUp fuel w).currentStep
      ∧ (runAux timeUp fuel w).currentStep ≤ (runAux timeUp fuel w).nSteps := by
  intro fuel
  induction fuel with
  | zero => exact fun w hw => ⟨le_refl _, hw⟩
  | succ n ih =>
    intro w hw
    simp only [runAux]
    by_cases ht : timeUp n
    · simp only [ht, if_true]
      exact ⟨le_refl _, hw⟩
    · simp only [ht, if_false]
      by_cases hg : w.nSteps ≤ w.currentStep
      · have hstep : step w = (false, w) := by simp [step, hg]
        simp only [hstep]
        exact ⟨le_refl _, hw⟩
      · have hstep : step w = (true, stepBody w) := by simp [step, hg]
        simp only [hstep]
        have hw' : (stepBody w).currentStep ≤ (stepBody w).nSteps := by
          rw [stepBody_currentStep, stepBody_nSteps]
          omega
        have hrest := ih (stepBody w) hw'
        refine ⟨le_trans ?_ hrest.1, hrest.2⟩
        rw [stepBody_currentStep]
        omega

/-- C7: `current_step` stays within `[0, n_steps]` (the lower bound is carried
by the `Nat` embedding, matching a counter initialized to 0 and only
incremented), is non-decreasing across `step()` calls, is incremented by
exactly one by every `step()` call that returns success and untouched by a
failing one, and after `run()` terminates it still satisfies
`current_step ≤ n_steps`. -/
theorem current_step_monotone_bounded {σ : Type} (w : World σ) (timeUp : Nat → Bool)
    (h : w.currentStep ≤ w.nSteps) :
    w.currentStep ≤ (step w).2.currentStep
    ∧ ((step w).1 = true → (step w).2.currentStep = w.currentStep + 1)
    ∧ ((step w).1 = false → (step w).2 = w)
    ∧ (step w).2.nSteps = w.nSteps
    ∧ (step w).2.currentStep ≤ (step w).2.nSteps
    ∧ w.currentStep ≤ (run timeUp w).currentStep
    ∧ (run timeUp w).currentStep ≤ (run timeUp w).nSteps := by
  have hrun := runAux_invariant timeUp w.nSteps w h
  by_cases hg : w.nSteps ≤ w.currentStep
  · have hstep : step w = (false, w) := by simp [step, hg]
    rw [hstep]
    exact ⟨le_refl _, fun hc => absurd hc (by simp), fun _ => rfl, rfl, h,
      hrun.1, hrun.2⟩
  · have hstep : step w = (true, stepBody w) := by simp [step, hg]
    rw [hstep]
    refine ⟨?_, fun _ => stepBody_currentStep w, fun hc => absurd hc (by simp),
      stepBody_nSteps w, ?_, hrun.1, hrun.2⟩
    · rw [stepBody_currentStep]
      omega
    · rw [stepBody_currentStep, stepBody_nSteps]
      omega

/-- Witness for `current_step_monotone_bounded` on a concrete world. -/
theorem current_step_monotone_bounded_witness :
    exhaustedWorld.currentStep ≤ exhaustedWorld.nSteps
    ∧ (exhaustedWorld.currentStep ≤ (step exhaustedWorld).2.currentStep
       ∧ ((step exhaustedWorld).1 = true →
            (step exhaustedWorld).2.currentStep = exhaustedWorld.currentStep + 1)
       ∧ ((step exhaustedWorld).1 = false → (step exhaustedWorld).2 = exhaustedWorld)
       ∧ (step exhaustedWorld).2.nSteps = exhaustedWorld.nSteps
       ∧ (step exhaustedWorld).2.currentStep ≤ (step exhaustedWorld).2.nSteps
       ∧ exhaustedWorld.currentStep
           ≤ (run (fun _ => false) exhaustedWorld).currentStep
       ∧ (run (fun _ => false) exhaustedWorld).currentStep
           ≤ (run (fun _ => false) exhaustedWorld).nSteps) :=
  ⟨by decide, current_step_monotone_bounded exhaustedWorld (fun _ => false) (by decide)⟩

theorem firstSome_append {α : Type} (l1 l2 : List (Option α)) :
    firstSome (l1 ++ l2) = (firstSome l1).elim (firstSome l2) some := by
  induction l1 with
  | nil => rfl
  | cons o rest ih =>
    cases o <;> simp [firstSome, ih]

theorem dictGet_foldl_dictUpdate {V : Type} :
    ∀ (ds : List (List (String × V))) (acc : List (String × V)) (k : String),
      dictGet (ds.foldl dictUpdate acc) k
        = (firstSome ((ds.map (fun d => dictGet d.reverse k)).reverse)).elim
            (dictGet acc k) some := by
  intro ds
  induction ds with
  | nil => intro acc k; rfl
  | cons d rest ih =>
    intro acc k
    show dictGet (rest.foldl dictUpdate (dictUpdate acc d)) k = _
    rw [ih, List.map_cons, List.reverse_cons, firstSome_append, dictGet_dictUpdate]
    rcases hf : firstSome ((rest.map (fun e => dictGet e.reverse k)).reverse) with _ | v
    · cases hd : dictGet d.reverse k <;> simp [Option.elim, firstSome, hd, hf]
    · simp [Option.elim, hf]

theorem queryMany_all_found {V : Type} (b : Board V) (q : QuerySpec V) :
    ∀ (ss : List String) (acc : List (String × V)),
      (∀ t ∈ ss, querySingle b t q ≠ none) →
      (ss.map (fun s => querySingle b s q)).foldlM
          (fun acc r =>
            match r with
            | none => Except.error ()
            | some d => Except.ok (dictUpdate acc d)) acc
        = .ok ((ss.map (fun s => (querySingle b s q).getD [])).foldl dictUpdate acc) := by
  intro ss
  induction ss with
  | nil => intro acc _; rfl
  | cons s rest ih =>
    intro acc hall
    obtain ⟨d, hd⟩ : ∃ d, querySingle b s q = some d :=
      Option.ne_none_iff_exists'.mp (hall s (List.mem_cons_self s rest))
    simp only [List.map_cons, List.foldlM_cons, hd, Option.getD_some, List.foldl_cons]
    exact ih (dictUpdate acc d) (fun t ht => hall t (List.mem_cons_of_mem s ht))

/-- C8 amended: a `None` section queries exactly the public sections (names
not starting with the internal `_` marker); a list of sections *all of which
exist and are non-empty* returns the union of the per-section results with
last-writer-wins on key collisions (later sections override earlier ones);
reading an unknown section, reading an unknown key in an existing section,
and single-section queries of an unknown or of an existing-but-empty section
all yield an absent result without failure.  (A *list* query containing an
unknown or empty section instead raises, see the counterexample.) -/
theorem bulletin_query_read_amended {V : Type} (b : Board V) (q : QuerySpec V)
    (s k s2 k2 se : String) (sec : List (String × V)) (ss : List String)
    (hmiss : dictGet b s = none)
    (hsec : dictGet b s2 = some sec)
    (hkey : dictGet sec k2 = none)
    (hempty : dictGet b se = some [])
    (hall : ∀ t ∈ ss, querySingle b t q ≠ none) :
    read b s k = none
    ∧ read b s2 k2 = none
    ∧ query b (.one s) q = .ok none
    ∧ query b (.one se) q = .ok none
    ∧ query b .allPublic q = query b (.many (publicSections b)) q
    ∧ ∃ res, query b (.many ss) q = .ok (some res)
        ∧ ∀ k', dictGet res k'
            = firstSome (ss.reverse.map
                (fun t => dictGet ((querySingle b t q).getD []).reverse k')) := by
  refine ⟨?_, ?_, ?_, ?_, rfl, ?_⟩
  · simp [read, hmiss]
  · simp [read, hsec, hkey]
  · simp [query, querySingle, hmiss]
  · simp [query, querySingle, hempty]
  · refine ⟨(ss.map (fun t => (querySingle b t q).getD [])).foldl dictUpdate [], ?_, ?_⟩
    · simp only [query, queryMany, queryMany_all_found b q ss [] hall, Except.map]
    · intro k'
      rw [dictGet_foldl_dictUpdate, List.map_map, ← List.map_reverse]
      have hnil : dictGet ([] : List (String × V)) k' = none := rfl
      rw [hnil]
      have helim : ∀ o : Option V, o.elim (none : Option V) some = o :=
        fun o => by cases o <;> rfl
      rw [helim]
      rfl

/-- Witness for `bulletin_query_read_amended` on a concrete board with two
populated sections and one empty section: a missing section, a missing key in
the existing `sec1`, the existing-but-empty `blank` section, and the
two-section union query are all exercised. -/
theorem bulletin_query_read_amended_witness :
    dictGet sampleBoardE "nosuch" = none
    ∧ dictGet sampleBoardE "sec1" = some [("k1", "v1"), ("k2", "v2")]
    ∧ dictGet [(("k1" : String), ("v1" : String)), ("k2", "v2")] "k9" = none
    ∧ dictGet sampleBoardE "blank" = some []
    ∧ (∀ t ∈ (["sec1", "sec2"] : List String),
        querySingle sampleBoardE t .noQuery ≠ none)
    ∧ (read sampleBoardE "nosuch" "k1" = none
       ∧ read sampleBoardE "sec1" "k9" = none
       ∧ query sampleBoardE (.one "nosuch") .noQuery = .ok none
       ∧ query sampleBoardE (.one "blank") .noQuery = .ok none
       ∧ query sampleBoardE .allPublic .noQuery
           = query sampleBoardE (.many (publicSections sampleBoardE)) .noQuery
       ∧ ∃ res, query sampleBoardE (.many ["sec1", "sec2"]) .noQuery = .ok (some res)
           ∧ ∀ k', dictGet res k'
               = firstSome ((["sec1", "sec2"] : List String).reverse.map
                   (fun t => dictGet
                     ((querySingle sampleBoardE t .noQuery).getD []).reverse k'))) :=
  ⟨by decide, by decide, by decide, by decide, by decide,
   bulletin_query_read_amended sampleBoardE .noQuery "nosuch" "k1" "sec1" "k9" "blank"
     [("k1", "v1"), ("k2", "v2")] ["sec1", "sec2"]
     (by decide) (by decide) (by decide) (by decide) (by decide)⟩

/-- C8 counterexample: querying a *list* of sections containing an unknown
section does throw — the per-section result `None` reaches
`final.update(None)`, a `TypeError` — rather than yielding an absent
result. -/
theorem query_list_unknown_section_raises :
    query sampleBoard (.many ["sec1", "missing"]) .noQuery = .error () := rfl

theorem reservoirLoop_length {α : Type} (rnd : Nat → Nat) (n : Nat) :
    ∀ (rest : List α) (i : Nat) (res : List α),
      (reservoirLoop rnd n rest i res).length = res.length := by
  intro rest
  induction rest with
  | nil => intro i res; rfl
  | cons v tail ih =>
    intro i res
    simp only [reservoirLoop]
    rw [ih]
    by_cases h : rnd i % (i + 1) < n <;> simp [h]

theorem reservoirLoop_subset {α : Type} (rnd : Nat → Nat) (n : Nat) :
    ∀ (rest : List α) (i : Nat) (res : List α) (x : α),
      x ∈ reservoirLoop rnd n rest i res → x ∈ res ∨ x ∈ rest := by
  intro rest
  induction rest with
  | nil => intro i res x hx; exact Or.inl hx
  | cons v tail ih =>
    intro i res x hx
    simp only [reservoirLoop] at hx
    rcases ih (i + 1) _ x hx with hres | htail
    · by_cases h : rnd i % (i + 1) < n
      · rw [if_pos h] at hres
        rcases List.mem_or_eq_of_mem_set hres with h1 | h2
        · exact Or.inl h1
        · exact Or.inr (h2 ▸ List.mem_cons_self v tail)
      · rw [if_neg h] at hres
        exact Or.inl hres
    · exact Or.inr (List.mem_cons_of_mem v htail)

theorem nodup_set {α : Type} :
    ∀ (l : List α) (a : α) (r : Nat), l.Nodup → a ∉ l → (l.set r a).Nodup := by
  intro l
  induction l with
  | nil => intro a r _ _; simp
  | cons x xs ih =>
    intro a r hnd ha
    have haxs : a ∉ xs := fun hax => ha (List.mem_cons_of_mem x hax)
    rw [List.nodup_cons] at hnd
    cases r with
    | zero =>
      rw [List.set_cons_zero, List.nodup_cons]
      exact ⟨haxs, hnd.2⟩
    | succ r' =>
      rw [List.set_cons_succ, List.nodup_cons]
      refine ⟨?_, ih a r' hnd.2 haxs⟩
      intro hx
      rcases List.mem_or_eq_of_mem_set hx with h1 | h2
      · exact hnd.1 h1
      · subst h2
        exact ha (List.mem_cons_self x xs)

theorem reservoirLoop_nodup {α : Type} (rnd : Nat → Nat) (n : Nat) :
    ∀ (rest : List α) (i : Nat) (res seen : List α),
      res.Nodup → (∀ x ∈ res, x ∈ seen) → (seen ++ rest).Nodup →
      (reservoirLoop rnd n rest i res).Nodup := by
  intro rest
  induction rest with
  | nil => intro i res seen h1 _ _; exact h1
  | cons v tail ih =>
    intro i res seen h1 h2 h3
    simp only [reservoirLoop]
    have hvseen : v ∉ seen := by
      intro hv
      rw [List.nodup_append] at h3
      exact h3.2.2 hv (List.mem_cons_self v tail)
    have h3' : ((seen ++ [v]) ++ tail).Nodup := by
      simpa [List.append_assoc] using h3
    refine ih (i + 1) _ (seen ++ [v]) ?_ ?_ h3'
    · by_cases h : rnd i % (i + 1) < n
      · rw [if_pos h]
        exact nodup_set res v _ h1 (fun hv => hvseen (h2 v hv))
      · rw [if_neg h]
        exact h1
    · intro x hx
      by_cases h : rnd i % (i + 1) < n
      · rw [if_pos h] at hx
        rcases List.mem_or_eq_of_mem_set hx with hm | he
        · exact List.mem_append_left _ (h2 x hm)
        · exact List.mem_append_right _ (by simp [he])
      · rw [if_neg h] at hx
        exact List.mem_append_left _ (h2 x hx)

/-- C9: sampling `k` items from a stream of `m` items with the tournament's
reservoir sampler returns, whenever `m ≥ k`, exactly `k` items each drawn
from the stream with no stream position used twice (for distinguishable
items the sample has no duplicates); whenever `k > m` the sampler raises
`ValueError("Sample larger than population.")`, which aborts construction.
Stated for every shuffling function that permutes its input (which
`random.shuffle` does for every random sequence) and every stream of random
draws. -/
theorem iter_sample_fast_spec {α : Type} (shuffle : List α → List α)
    (rnd : Nat → Nat) (stream : List α) (n : Nat)
    (hsh : ∀ l : List α, (shuffle l).Perm l) :
    (n ≤ stream.length →
      ∃ res, iterSampleFast shuffle rnd stream n = .ok res
        ∧ res.length = n
        ∧ (∀ x ∈ res, x ∈ stream)
        ∧ (stream.Nodup → res.Nodup))
    ∧ (stream.length < n →
        iterSampleFast shuffle rnd stream n
          = .error "Sample larger than population.") := by
  constructor
  · intro hn
    have hnot : ¬stream.length < n := not_lt.mpr hn
    refine ⟨reservoirLoop rnd n (stream.drop n) n (shuffle (stream.take n)),
      by simp [iterSampleFast, hnot], ?_, ?_, ?_⟩
    · rw [reservoirLoop_length, (hsh _).length_eq, List.length_take]
      omega
    · intro x hx
      rcases reservoirLoop_subset rnd n _ _ _ x hx with hres | hdrop
      · exact List.take_subset _ _ ((hsh _).mem_iff.mp hres)
      · exact List.drop_subset _ _ hdrop
    · intro hnd
      refine reservoirLoop_nodup rnd n _ n _ (stream.take n) ?_ ?_ ?_
      · exact ((hsh _).nodup_iff).mpr ((hnd.sublist (List.take_sublist n stream)))
      · intro x hx
        exact (hsh _).mem_iff.mp hx
      · rw [List.take_append_drop]
        exact hnd
  · intro hlt
    simp [iterSampleFast, hlt]

/-- Witness for `iter_sample_fast_spec`: the identity shuffle (a permutation)
on the stream `[10, 20, 30]`, sampling 2 (succeeds) and 4 (fails). -/
theorem iter_sample_fast_witness :
    ((2 : Nat) ≤ ([10, 20, 30] : List Nat).length
     ∧ ∃ res, iterSampleFast (fun l => l) (fun _ => 0) [10, 20, 30] 2 = .ok res
        ∧ res.length = 2
        ∧ (∀ x ∈ res, x ∈ ([10, 20, 30] : List Nat))
        ∧ (([10, 20, 30] : List Nat).Nodup → res.Nodup))
    ∧ (([10, 20, 30] : List Nat).length < 4
       ∧ iterSampleFast (fun l => l) (fun _ => 0) [10, 20, 30] 4
           = .error "Sample larger than population.") :=
  ⟨⟨by decide,
    (iter_sample_fast_spec (fun l => l) (fun _ => 0) [10, 20, 30] 2
      (fun l => List.Perm.refl l)).1 (by decide)⟩,
   ⟨by decide,
    (iter_sample_fast_spec (fun l => l) (fun _ => 0) [10, 20, 30] 4
      (fun l => List.Perm.refl l)).2 (by decide)⟩⟩

end Negmas
